import Mathlib

/-!
# Working-calendar task store and statistics: a shallow embedding

This file embeds the task persistence and aggregation engine of the
working-calendar server (`src/Task.js`, `src/tasks.js`, `src/stats.js`)
and proves the specified properties about it.

Modelling conventions:
* Mongo ObjectIds and user ids are opaque; we model both as `Nat`.
  Route-level `isMongoId` shape checks belong to the excluded transport
  layer, so the id space of the model is exactly the valid ids.
* Timestamps (`Date.now`, `new Date()`) are opaque instants, modelled as
  `Nat`; each mutating route receives the instant `now` at which it runs.
* The Mongo collection backing `Task` is a `List Task` in insertion
  order; `findOne*` operations act on the first matching element, as
  Mongo does in natural order.
* JavaScript request bodies are dynamic; each route's body is modelled
  as a structure of `Option`-typed fields covering the fields the route
  reads plus the schema fields a caller could smuggle in (`tasks.js`
  spreads the whole body into the update document, so those matter).
* `express-validator` chains are embedded as functions computing the
  list of field-level error messages; a non-empty list yields the 400
  response (`handleValidation`).
* Numbers: stored `progress`/`priority` are integers (`Int`); averages
  are computed in `ℚ` and rounded with the embedding of `Math.round`.
-/

namespace WorkingCalendar

/-- A stored task document, following `TaskSchema` in `src/Task.js`:
`userId`, `date` (a `YYYY-MM-DD` string), `title`, `progress` (0-100,
default 0), `category` (default `"general"`), `priority` (1-3, default
1), `createTime` and `updateTime`. The Mongo `_id` is the `id` field. -/
structure Task where
  id : Nat
  userId : Nat
  date : String
  title : String
  progress : Int
  category : String
  priority : Int
  createTime : Nat
  updateTime : Nat
deriving Repr, DecidableEq

/-- The task collection, in insertion (natural) order. -/
abbrev Store := List Task

/-- Outcome of a route handler, mirroring the HTTP statuses used in
`src/tasks.js` / `src/stats.js`: 200/201 success, 400 parameter
validation failure carrying the field-level error messages from
`express-validator`, 404 not found, and 500 internal error (the `catch`
branches). -/
inductive ApiResult (α : Type) where
  | ok : α → ApiResult α
  | validationError : List String → ApiResult α
  | notFound : ApiResult α
  | internalError : ApiResult α
deriving Repr, DecidableEq

namespace ApiResult

/-- Whether a result is the 400 validation outcome. -/
def isValidationError {α : Type} : ApiResult α → Bool
  | validationError _ => true
  | _ => false

end ApiResult

/-! ## String comparison

MongoDB compares BSON strings byte-wise on their UTF-8 encoding; on
ASCII date strings of the form `YYYY-MM-DD` this is exactly the
lexicographic order on code points, which we embed directly. -/

/-- Lexicographic `≤` on code-point sequences. -/
def charsLE : List Char → List Char → Bool
  | [], _ => true
  | _ :: _, [] => false
  | a :: as, b :: bs =>
      if a.val < b.val then true
      else if b.val < a.val then false
      else charsLE as bs

/-- Lexicographic `<` on code-point sequences. -/
def charsLT : List Char → List Char → Bool
  | [], [] => false
  | [], _ :: _ => true
  | _ :: _, [] => false
  | a :: as, b :: bs =>
      if a.val < b.val then true
      else if b.val < a.val then false
      else charsLT as bs

/-- Lexicographic `≤` on strings (Mongo `$lte`/`$gte` on strings). -/
def strLE (a b : String) : Bool := charsLE a.data b.data

/-- Lexicographic `<` on strings. -/
def strLT (a b : String) : Bool := charsLT a.data b.data

/-- JS `String.prototype.trim` (the Mongoose `trim: true` setter):
strip whitespace from both ends. -/
def strTrim (s : String) : String :=
  ⟨((s.data.dropWhile Char.isWhitespace).reverse.dropWhile Char.isWhitespace).reverse⟩

/-! ## Sorting (`.sort({ date: 1, createTime: 1 })`) -/

/-- The sort key used by the listing routes: ascending by `date`, ties
broken by ascending `createTime`. -/
def taskLE (a b : Task) : Bool :=
  strLT a.date b.date || (a.date == b.date && decide (a.createTime ≤ b.createTime))

/-- Insert a task into a list sorted by `taskLE`. -/
def insertTask (t : Task) : List Task → List Task
  | [] => [t]
  | u :: us => if taskLE u t then u :: insertTask t us else t :: u :: us

/-- Stable sort by `(date, createTime)`, the embedding of
`.sort({ date: 1, createTime: 1 })`. -/
def sortTasks : List Task → List Task
  | [] => []
  | t :: ts => insertTask t (sortTasks ts)

/-! ## GET /api/tasks and GET /api/tasks/range -/

/-- The filter built by `GET /api/tasks`: always `{ userId }`, and
additionally `{ date }` when a (truthy, i.e. non-empty) `date` query
parameter was supplied (`if (date) filter.date = date`). -/
def listFilter (ownerId : Nat) (date : Option String) (t : Task) : Bool :=
  t.userId == ownerId &&
    (match date with
     | some d => if d = "" then true else t.date == d
     | none => true)

/-- `GET /api/tasks?date=...`: list the caller's tasks, optionally
restricted to one date, sorted by `(date, createTime)`. The only
validator, `query('date').optional().isString()`, always passes in the
typed model. -/
def listTasksRoute (s : Store) (ownerId : Nat) (date : Option String) :
    ApiResult (List Task) :=
  .ok (sortTasks (s.filter (listFilter ownerId date)))

/-- `GET /api/tasks/range?start=...&end=...`: the caller's tasks with
`start ≤ date ≤ end` (Mongo `$gte`/`$lte`, lexicographic on strings),
sorted. `start`/`end` must be present (`isString`). -/
def listRangeRoute (s : Store) (ownerId : Nat) (start? end? : Option String) :
    ApiResult (List Task) :=
  match start?, end? with
  | some st, some en =>
      .ok (sortTasks (s.filter (fun t =>
        t.userId == ownerId && strLE st t.date && strLE t.date en)))
  | some _, none => .validationError ["end 必填"]
  | none, some _ => .validationError ["start 必填"]
  | none, none => .validationError ["start 必填", "end 必填"]

/-! ## POST /api/tasks -/

/-- The request body of `POST /api/tasks`. Besides the five fields the
handler destructures, a caller may include `id`, `userId`, `createTime`
or `updateTime`; the handler never reads them (it builds the document
explicitly), but they are part of the input space. -/
structure CreateBody where
  date : Option String := none
  title : Option String := none
  progress : Option Int := none
  category : Option String := none
  priority : Option Int := none
  id : Option Nat := none
  userId : Option Nat := none
  createTime : Option Nat := none
  updateTime : Option Nat := none
deriving Repr, DecidableEq

/-- The `express-validator` chain of `POST /api/tasks`:
`date` must be a string; `title` must be a string and non-empty
(`notEmpty()` with its default options, which does **not** trim, so a
whitespace-only title passes); `progress` optional integer in 0-100;
`priority` optional integer in 1-3. -/
def createValidate (b : CreateBody) : List String :=
  (match b.date with
   | none => ["date 必填"]
   | some _ => []) ++
  (match b.title with
   | none => ["title 必填"]
   | some t => if t = "" then ["title 必填"] else []) ++
  (match b.progress with
   | none => []
   | some p => if p < 0 ∨ 100 < p then ["progress 应为 0-100"] else []) ++
  (match b.priority with
   | none => []
   | some p => if p < 1 ∨ 3 < p then ["Invalid value"] else [])

/-- `Task.create` (`src/Task.js`): applies the schema setters (`trim` on
`title` and `category`), the defaults `createTime = updateTime = now`,
and the schema validations (`required` on `date` and `title` — for
strings, required means non-empty *after* the trim setter; `min`/`max`
on `progress` and `priority`). A schema validation failure makes
`Task.create` throw (`none`), which the route surfaces as a 500. The
`pre('save')` hook sets `updateTime` to the save instant. -/
def mongooseCreateTask (ownerId freshId now : Nat) (date title : String)
    (progress : Int) (category : String) (priority : Int) : Option Task :=
  let title := strTrim title
  let category := strTrim category
  if date = "" then none
  else if title = "" then none
  else if progress < 0 ∨ 100 < progress then none
  else if priority < 1 ∨ 3 < priority then none
  else some
    { id := freshId, userId := ownerId, date := date, title := title,
      progress := progress, category := category, priority := priority,
      createTime := now, updateTime := now }

/-- `POST /api/tasks`: validate, destructure
`{ date, title, progress = 0, category = 'general', priority = 1 }`
from the body, and persist `{ userId: req.user.id, date, title,
progress, category, priority }`. Returns the created task (201) and the
new store; on failure the store is unchanged. -/
def createTaskRoute (s : Store) (ownerId freshId now : Nat) (b : CreateBody) :
    ApiResult Task × Store :=
  let errs := createValidate b
  if errs = [] then
    match mongooseCreateTask ownerId freshId now (b.date.getD "") (b.title.getD "")
        (b.progress.getD 0) (b.category.getD "general") (b.priority.getD 1) with
    | some t => (.ok t, s ++ [t])
    | none => (.internalError, s)
  else (.validationError errs, s)

/-! ## findOneAndUpdate / findOneAndDelete -/

/-- `findOneAndUpdate(filter, ·, { new: true })`: rewrite the first
matching document with `f` and return the new document; `none` when no
document matches. -/
def updateFirst (p : Task → Bool) (f : Task → Task) : List Task → Option Task × List Task
  | [] => (none, [])
  | t :: ts =>
      if p t then (some (f t), f t :: ts)
      else
        let r := updateFirst p f ts
        (r.1, t :: r.2)

/-- `findOneAndDelete(filter)`: remove the first matching document and
return it; `none` when no document matches. -/
def removeFirst (p : Task → Bool) : List Task → Option Task × List Task
  | [] => (none, [])
  | t :: ts =>
      if p t then (some t, ts)
      else
        let r := removeFirst p ts
        (r.1, t :: r.2)

/-! ## PUT /api/tasks/:id -/

/-- A Mongo `$set` operator document, cast against the schema paths of
`TaskSchema`. The route validators never look inside it (they read only
the named top-level body fields), and `findOneAndUpdate` applies it
without schema validation (`runValidators` defaults to false), so its
values land in the store as-is. A smuggled `$set.updateTime` is not
modelled because the `pre('findOneAndUpdate')` hook sets `updateTime`
into the update afterwards, overwriting it; a `$set._id` makes Mongo
error (a 500), touching nothing. -/
structure SetDoc where
  date : Option String := none
  title : Option String := none
  progress : Option Int := none
  category : Option String := none
  priority : Option Int := none
  userId : Option Nat := none
  createTime : Option Nat := none
deriving Repr, DecidableEq

/-- The request body of `PUT /api/tasks/:id`. The handler does
`const updates = { ...req.body }` and hands the whole object to
`findOneAndUpdate`, so any schema field present in the body — including
`userId` and `createTime`, for which no validator is declared — becomes
part of the update document; and so does a Mongo update-operator key
such as `$set` (`setOp` here), which the validators cannot see at all. -/
structure UpdateBody where
  date : Option String := none
  title : Option String := none
  progress : Option Int := none
  category : Option String := none
  priority : Option Int := none
  userId : Option Nat := none
  createTime : Option Nat := none
  setOp : Option SetDoc := none
deriving Repr, DecidableEq

/-- Validators of `PUT /api/tasks/:id`: `date`, `title`, `category`
optional strings (always fine in the typed model); `progress` optional
integer 0-100; `priority` optional integer 1-3. Nothing constrains
`userId` or `createTime`. -/
def updateValidate (b : UpdateBody) : List String :=
  (match b.progress with
   | none => []
   | some p => if p < 0 ∨ 100 < p then ["Invalid value"] else []) ++
  (match b.priority with
   | none => []
   | some p => if p < 1 ∨ 3 < p then ["Invalid value"] else [])

/-- Apply the update document `{ ...req.body }` to a matched task.
Mongoose's `castUpdate` folds plain top-level keys into the `$set`
document (`ret.$set[key] = update[key]`, so a plain key overwrites a
duplicate `$set` entry), each present field overwrites the stored
field, and the `pre('findOneAndUpdate')` hook sets `updateTime` to
`now`. -/
def applyUpdateDoc (b : UpdateBody) (now : Nat) (t : Task) : Task :=
  let sdoc := b.setOp.getD {}
  { t with
    date := b.date.getD (sdoc.date.getD t.date),
    title := b.title.getD (sdoc.title.getD t.title),
    progress := b.progress.getD (sdoc.progress.getD t.progress),
    category := b.category.getD (sdoc.category.getD t.category),
    priority := b.priority.getD (sdoc.priority.getD t.priority),
    userId := b.userId.getD (sdoc.userId.getD t.userId),
    createTime := b.createTime.getD (sdoc.createTime.getD t.createTime),
    updateTime := now }

/-- `PUT /api/tasks/:id`: validate, then
`findOneAndUpdate({ _id: id, userId: req.user.id }, { ...req.body },
{ new: true })`; `null` yields 404. -/
def updateTaskRoute (s : Store) (ownerId id : Nat) (b : UpdateBody) (now : Nat) :
    ApiResult Task × Store :=
  let errs := updateValidate b
  if errs = [] then
    match updateFirst (fun t => t.id == id && t.userId == ownerId)
        (applyUpdateDoc b now) s with
    | (some t, s2) => (.ok t, s2)
    | (none, _) => (.notFound, s)
  else (.validationError errs, s)

/-! ## DELETE /api/tasks/:id -/

/-- `DELETE /api/tasks/:id`:
`findOneAndDelete({ _id: id, userId: req.user.id })`; `null` yields
404, otherwise the confirmation message. -/
def deleteTaskRoute (s : Store) (ownerId id : Nat) : ApiResult String × Store :=
  match removeFirst (fun t => t.id == id && t.userId == ownerId) s with
  | (some _, s2) => (.ok "删除成功", s2)
  | (none, _) => (.notFound, s)

/-! ## PUT /api/tasks/:id/progress -/

/-- Validator of `PUT /api/tasks/:id/progress`: `progress` must be
present and an integer in 0-100. -/
def progressValidate (progress : Option Int) : List String :=
  match progress with
  | none => ["progress 必须在 0-100"]
  | some p => if p < 0 ∨ 100 < p then ["progress 必须在 0-100"] else []

/-- `PUT /api/tasks/:id/progress`: validate, then
`findOneAndUpdate({ _id: id, userId: req.user.id }, { progress },
{ new: true })` — the update document contains only `progress`, plus
the hook's `updateTime`. -/
def updateProgressRoute (s : Store) (ownerId id : Nat) (progress : Option Int)
    (now : Nat) : ApiResult Task × Store :=
  let errs := progressValidate progress
  if errs = [] then
    match updateFirst (fun t => t.id == id && t.userId == ownerId)
        (fun t => { t with progress := progress.getD t.progress, updateTime := now }) s with
    | (some t, s2) => (.ok t, s2)
    | (none, _) => (.notFound, s)
  else (.validationError errs, s)

/-! ## Statistics (`src/stats.js`) -/

/-- Sum of the `progress` fields of a list of tasks
(`tasks.reduce((sum, t) => sum + (t.progress || 0), 0)`; in the typed
model `progress` is always set, so `|| 0` is the identity). -/
def sumProgress (ts : List Task) : Int :=
  ts.foldl (fun a t => a + t.progress) 0

/-- `Math.round` (ECMA-262): the number closest to the argument, exact
halves rounding toward +∞, i.e. `⌊q + 1/2⌋`. -/
def mathRound (q : ℚ) : ℤ := ⌊q + 1 / 2⌋

/-- The ECMA-262 leap-year predicate (`DaysInYear(y) = 366`): `y` is
divisible by 4 and not by 100, or divisible by 400. -/
def natIsLeap (y : Nat) : Bool :=
  (y % 4 == 0 && !(y % 100 == 0)) || (y % 400 == 0)

/-- ECMA-262 `DayFromYear`: the epoch day number of 1 January of year
`y` (written with truncated subtraction; it agrees with ECMA for the
years `y ≥ 1970` admitted by the route validator). -/
def dayFromYear (y : Nat) : ℤ :=
  365 * ((y : ℤ) - 1970) + (((y - 1969) / 4 : Nat) : ℤ)
    - (((y - 1901) / 100 : Nat) : ℤ) + (((y - 1601) / 400 : Nat) : ℤ)

/-- ECMA-262 `DayWithinYear` table: days of the year strictly before
the 0-based month `m`. -/
def cumDays (leap : Bool) (m : Nat) : ℤ :=
  let l : ℤ := if leap then 1 else 0
  match m with
  | 0 => 0
  | 1 => 31
  | 2 => 59 + l
  | 3 => 90 + l
  | 4 => 120 + l
  | 5 => 151 + l
  | 6 => 181 + l
  | 7 => 212 + l
  | 8 => 243 + l
  | 9 => 273 + l
  | 10 => 304 + l
  | _ => 334 + l

/-- Epoch day number of the first day of 0-based month index `idx` of
year `y`, after the ECMA `MakeDay` normalisation
`ym = y + ⌊idx / 12⌋`, `mn = idx mod 12`. -/
def monthStartDay (y idx : Nat) : ℤ :=
  dayFromYear (y + idx / 12) + cumDays (natIsLeap (y + idx / 12)) (idx % 12)

/-- `new Date(year, month, 0).getDate()` for the 1-based `month` of the
route: day 0 of month index `month` is the day before the first of that
index, which is the last day of calendar month `month`; its
day-of-month is the length of that month, i.e. the difference of
consecutive month starts. -/
def jsLastDayOfMonth (year month : Nat) : ℤ :=
  monthStartDay year month - monthStartDay year (month - 1)

/-- `n.toString().padStart(2, '0')`. -/
def pad2 (n : Nat) : String :=
  let s := toString n
  if s.length < 2 then "0" ++ s else s

/-- The month's start date string, `` `${year}-${pad(month)}-01` ``. -/
def monthStartString (year month : Nat) : String :=
  toString year ++ "-" ++ pad2 month ++ "-01"

/-- The month's end date string,
`` `${year}-${pad(month)}-${pad(lastDay)}` ``. -/
def monthEndString (year month : Nat) : String :=
  toString year ++ "-" ++ pad2 month ++ "-" ++ pad2 (jsLastDayOfMonth year month).toNat

/-- The tasks selected by `GET /api/stats/monthly`:
`{ userId, date: { $gte: start, $lte: end } }` (string comparison is
lexicographic). -/
def monthTasks (s : Store) (ownerId year month : Nat) : List Task :=
  s.filter (fun t =>
    t.userId == ownerId && strLE (monthStartString year month) t.date
      && strLE t.date (monthEndString year month))

/-- Group a task list by its exact `date` string. Keys of the form
`YYYY-MM-DD` are not array indices, so the JS object preserves
insertion order: groups appear in order of first occurrence and each
group keeps its tasks in traversal order. -/
def groupByDate (ts : List Task) : List (String × List Task) :=
  ts.foldl (fun acc t =>
    if acc.any (fun g => g.1 == t.date) then
      acc.map (fun g => if g.1 == t.date then (g.1, g.2 ++ [t]) else g)
    else acc ++ [(t.date, [t])]) []

/-- One element of the `daily` array of the monthly stats. -/
structure DailyStat where
  date : String
  count : Nat
  averageProgress : ℤ
deriving Repr, DecidableEq

/-- The payload of `GET /api/stats/monthly`. -/
structure MonthlyStats where
  total : Nat
  averageProgress : ℤ
  daily : List DailyStat
deriving Repr, DecidableEq

/-- Validators of `GET /api/stats/monthly`: `year` an integer ≥ 1970,
`month` an integer in 1-12. -/
def monthlyValidate (year month : Nat) : List String :=
  (if year < 1970 then ["year 必须有效"] else []) ++
  (if month < 1 ∨ 12 < month then ["month 应为 1-12"] else [])

/-- `GET /api/stats/monthly?year=YYYY&month=MM`: select the month's
tasks, count them, average their progress (`0` when the month is
empty), and aggregate per day. -/
def monthlyRoute (s : Store) (ownerId year month : Nat) : ApiResult MonthlyStats :=
  if monthlyValidate year month = [] then
    let tasks := monthTasks s ownerId year month
    let total := tasks.length
    let avg : ℤ :=
      if total = 0 then 0 else mathRound ((sumProgress tasks : ℚ) / (total : ℚ))
    let daily := (groupByDate tasks).map (fun g =>
      { date := g.1, count := g.2.length,
        averageProgress := mathRound ((sumProgress g.2 : ℚ) / (g.2.length : ℚ)) : DailyStat })
    .ok { total := total, averageProgress := avg, daily := daily }
  else .validationError (monthlyValidate year month)

/-- The `$match: { userId }` stage of `GET /api/stats/daily-completion`. -/
def ownerTasks (s : Store) (ownerId : Nat) : List Task :=
  s.filter (fun t => t.userId == ownerId)

/-- Insert a group into a list sorted ascending by date key. -/
def insertGroup (g : String × List Task) :
    List (String × List Task) → List (String × List Task)
  | [] => [g]
  | h :: hs => if strLE h.1 g.1 then h :: insertGroup g hs else g :: h :: hs

/-- `$sort: { _id: 1 }`: sort the date groups ascending by date. -/
def sortGroups : List (String × List Task) → List (String × List Task)
  | [] => []
  | g :: gs => insertGroup g (sortGroups gs)

/-- One element of the daily-completion payload. -/
structure CompletionStat where
  date : String
  averageProgress : ℤ
  count : Nat
deriving Repr, DecidableEq

/-- `GET /api/stats/daily-completion`: group the caller's tasks by
date (`$group` with `$avg`/`$sum`), sort ascending by date, and round
each group's average. -/
def dailyCompletionRoute (s : Store) (ownerId : Nat) : ApiResult (List CompletionStat) :=
  .ok ((sortGroups (groupByDate (ownerTasks s ownerId))).map (fun g =>
    { date := g.1,
      averageProgress := mathRound ((sumProgress g.2 : ℚ) / (g.2.length : ℚ)),
      count := g.2.length }))

/-! ## Spec-side definitions (for refinement claims)

These two definitions follow the words of the specification, not the
source; the theorems below compare them with the source-derived
definitions. -/

/-- The spec's rounding rule in integer form: "round to nearest
integer, halves round up — value + 0.5 truncated" applied to the
average `sum / count`, i.e. `(2·sum + count) / (2·count)` with integer
division. -/
def specAvg (sum : ℤ) (count : Nat) : ℤ :=
  (2 * sum + (count : ℤ)) / (2 * (count : ℤ))

/-- The spec's "matching month's last calendar day, leap-year aware":
February has 29 days in Gregorian leap years and 28 otherwise; April,
June, September and November have 30; the rest have 31. -/
def specLastDay (year month : Nat) : ℤ :=
  if month = 2 then
    (if 4 ∣ year ∧ (¬ 100 ∣ year ∨ 400 ∣ year) then 29 else 28)
  else if month = 4 ∨ month = 6 ∨ month = 9 ∨ month = 11 then 30 else 31

/-! ## Helper lemmas -/

/-- `Math.round (n / d)` for an integer numerator and natural
denominator equals the integer division `(2n + d) / (2d)`. -/
theorem mathRound_div (n : ℤ) (d : ℕ) :
    mathRound ((n : ℚ) / (d : ℚ)) = (2 * n + d) / (2 * d : ℤ) := by
  rcases Nat.eq_zero_or_pos d with hd | hd
  · subst hd
    norm_num [mathRound]
  · have hd0 : ((d : ℚ)) ≠ 0 := by positivity
    have hq : (n : ℚ) / (d : ℚ) + 1 / 2 = ((2 * n + d : ℤ) : ℚ) / ((2 * d : ℕ) : ℚ) := by
      push_cast
      field_simp
      ring
    rw [mathRound, hq, Rat.floor_intCast_div_natCast]
    push_cast
    ring_nf

/-- Membership in `insertTask`. -/
theorem mem_insertTask {u t : Task} {l : List Task} :
    u ∈ insertTask t l ↔ u = t ∨ u ∈ l := by
  induction l with
  | nil => simp [insertTask]
  | cons a as ih =>
      by_cases hta : taskLE a t
      · simp only [insertTask, if_pos hta, List.mem_cons, ih]
        tauto
      · simp only [insertTask, if_neg hta, List.mem_cons]

/-- Sorting does not change membership. -/
theorem mem_sortTasks {u : Task} {l : List Task} :
    u ∈ sortTasks l ↔ u ∈ l := by
  induction l with
  | nil => simp [sortTasks]
  | cons a as ih => simp [sortTasks, mem_insertTask, ih]

/-- `findOneAndUpdate` misses exactly when nothing matches. -/
theorem updateFirst_fst_none_iff (p : Task → Bool) (f : Task → Task) (l : List Task) :
    (updateFirst p f l).1 = none ↔ ∀ t ∈ l, p t = false := by
  induction l with
  | nil => simp [updateFirst]
  | cons a as ih =>
      by_cases hpa : p a
      · simp only [updateFirst, if_pos hpa]
        simp only [reduceCtorEq, false_iff]
        intro h
        have := h a (List.mem_cons_self a as)
        rw [hpa] at this
        cases this
      · simp only [updateFirst, if_neg hpa, ih, List.mem_cons]
        constructor
        · intro h t ht
          rcases ht with rfl | ht
          · exact Bool.eq_false_iff.mpr hpa
          · exact h t ht
        · intro h t ht
          exact h t (Or.inr ht)

/-- A hit of `findOneAndUpdate` returns `f` of some matching stored
task. -/
theorem updateFirst_fst_some {p : Task → Bool} {f : Task → Task} {l : List Task}
    {u : Task} (h : (updateFirst p f l).1 = some u) :
    ∃ t, t ∈ l ∧ p t = true ∧ u = f t := by
  induction l with
  | nil => simp [updateFirst] at h
  | cons a as ih =>
      by_cases hpa : p a
      · rw [updateFirst, if_pos hpa] at h
        exact ⟨a, List.mem_cons_self a as, hpa, (Option.some_inj.mp h).symm⟩
      · rw [updateFirst, if_neg hpa] at h
        obtain ⟨t, ht, hpt, hu⟩ := ih h
        exact ⟨t, List.mem_cons_of_mem a ht, hpt, hu⟩

/-- Every element of the store after `findOneAndUpdate` is an old
element or the rewrite of a matching old element. -/
theorem updateFirst_snd_mem {p : Task → Bool} {f : Task → Task} {l : List Task}
    {u : Task} (h : u ∈ (updateFirst p f l).2) :
    u ∈ l ∨ ∃ t, t ∈ l ∧ p t = true ∧ u = f t := by
  induction l with
  | nil => simp [updateFirst] at h
  | cons a as ih =>
      by_cases hpa : p a
      · rw [updateFirst, if_pos hpa] at h
        rcases List.mem_cons.mp h with rfl | h
        · exact Or.inr ⟨a, List.mem_cons_self a as, hpa, rfl⟩
        · exact Or.inl (List.mem_cons_of_mem a h)
      · rw [updateFirst, if_neg hpa] at h
        rcases List.mem_cons.mp h with rfl | h
        · exact Or.inl (List.mem_cons_self u as)
        · rcases ih h with h' | ⟨t, ht, hpt, hu⟩
          · exact Or.inl (List.mem_cons_of_mem a h')
          · exact Or.inr ⟨t, List.mem_cons_of_mem a ht, hpt, hu⟩

/-- A non-matching element survives `findOneAndUpdate` untouched. -/
theorem updateFirst_mem_snd_of_false {p : Task → Bool} {f : Task → Task}
    {l : List Task} {u : Task} (hu : u ∈ l) (hpu : p u = false) :
    u ∈ (updateFirst p f l).2 := by
  induction l with
  | nil => cases hu
  | cons a as ih =>
      by_cases hpa : p a
      · rw [updateFirst, if_pos hpa]
        rcases List.mem_cons.mp hu with rfl | hu
        · rw [hpa] at hpu; cases hpu
        · exact List.mem_cons_of_mem _ hu
      · rw [updateFirst, if_neg hpa]
        rcases List.mem_cons.mp hu with rfl | hu
        · exact List.mem_cons_self u _
        · exact List.mem_cons_of_mem _ (ih hu)

/-- When exactly one stored task matches, `findOneAndUpdate` rewrites
precisely that task and leaves the rest of the store unchanged. -/
theorem updateFirst_of_unique {p : Task → Bool} {f : Task → Task} {l : List Task}
    {t : Task} (hnd : l.Nodup) (ht : t ∈ l) (hpt : p t = true)
    (huniq : ∀ v ∈ l, p v = true → v = t) :
    updateFirst p f l = (some (f t), l.map (fun u => if u = t then f t else u)) := by
  induction l with
  | nil => cases ht
  | cons a as ih =>
      rcases List.mem_cons.mp ht with rfl | ht
      · rw [updateFirst, if_pos hpt]
        have hnotmem : t ∉ as := (List.nodup_cons.mp hnd).1
        have : as.map (fun u => if u = t then f t else u) = as := by
          calc as.map (fun u => if u = t then f t else u)
              = as.map id := by
                apply List.map_congr_left
                intro u hu
                rw [if_neg]
                · rfl
                · intro h
                  exact hnotmem (h ▸ hu)
            _ = as := List.map_id as
        simp [this]
      · have hpa : p a = false := by
          by_contra h
          have := huniq a (List.mem_cons_self a as) (Bool.not_eq_false _ |>.mp h)
          subst this
          exact (List.nodup_cons.mp hnd).1 ht
        rw [updateFirst, if_neg (by simp [hpa])]
        have has : a ≠ t := by
          intro h
          rw [h, hpt] at hpa
          cases hpa
        have ihr := ih (List.nodup_cons.mp hnd).2 ht
          (fun v hv hpv => huniq v (List.mem_cons_of_mem a hv) hpv)
        simp [ihr, if_neg has]

/-- `findOneAndDelete` misses exactly when nothing matches. -/
theorem removeFirst_fst_none_iff (p : Task → Bool) (l : List Task) :
    (removeFirst p l).1 = none ↔ ∀ t ∈ l, p t = false := by
  induction l with
  | nil => simp [removeFirst]
  | cons a as ih =>
      by_cases hpa : p a
      · have h1 : (removeFirst p (a :: as)).1 = some a := by simp [removeFirst, hpa]
        rw [h1]
        simp only [reduceCtorEq, false_iff]
        intro h
        have := h a (List.mem_cons_self a as)
        rw [hpa] at this
        cases this
      · simp only [removeFirst, if_neg hpa, ih, List.mem_cons]
        constructor
        · intro h t ht
          rcases ht with rfl | ht
          · exact Bool.eq_false_iff.mpr hpa
          · exact h t ht
        · intro h t ht
          exact h t (Or.inr ht)

/-- Deletion only removes elements. -/
theorem removeFirst_snd_subset {p : Task → Bool} {l : List Task} {u : Task}
    (h : u ∈ (removeFirst p l).2) : u ∈ l := by
  induction l with
  | nil => simp [removeFirst] at h
  | cons a as ih =>
      by_cases hpa : p a
      · rw [removeFirst, if_pos hpa] at h
        exact List.mem_cons_of_mem a h
      · rw [removeFirst, if_neg hpa] at h
        rcases List.mem_cons.mp h with rfl | h
        · exact List.mem_cons_self u as
        · exact List.mem_cons_of_mem a (ih h)

/-- A non-matching element survives `findOneAndDelete`. -/
theorem removeFirst_mem_snd_of_false {p : Task → Bool} {l : List Task} {u : Task}
    (hu : u ∈ l) (hpu : p u = false) : u ∈ (removeFirst p l).2 := by
  induction l with
  | nil => cases hu
  | cons a as ih =>
      by_cases hpa : p a
      · rw [removeFirst, if_pos hpa]
        rcases List.mem_cons.mp hu with rfl | hu
        · rw [hpa] at hpu; cases hpu
        · exact hu
      · rw [removeFirst, if_neg hpa]
        rcases List.mem_cons.mp hu with rfl | hu
        · exact List.mem_cons_self u _
        · exact List.mem_cons_of_mem _ (ih hu)

/-- A successful `findOneAndDelete` removes exactly one matching
document. -/
theorem removeFirst_countP {p : Task → Bool} {l : List Task}
    (h : (removeFirst p l).1 ≠ none) :
    ((removeFirst p l).2.countP p) + 1 = l.countP p := by
  induction l with
  | nil => simp [removeFirst] at h
  | cons a as ih =>
      by_cases hpa : p a
      · rw [removeFirst, if_pos hpa]
        simp [List.countP_cons, hpa]
      · rw [removeFirst, if_neg hpa]
        rw [removeFirst, if_neg hpa] at h
        have := ih (by simpa using h)
        simp only [List.countP_cons, if_neg hpa]
        omega

/-- In a store with pairwise-distinct ids, at most one document
matches a given `(id, owner)` filter. -/
theorem countP_le_one_of_pairwise_id (idv owner : Nat) (l : List Task)
    (h : l.Pairwise (fun a b => a.id ≠ b.id)) :
    l.countP (fun t => t.id == idv && t.userId == owner) ≤ 1 := by
  induction l with
  | nil => simp
  | cons a as ih =>
      rcases List.pairwise_cons.mp h with ⟨ha, has⟩
      by_cases hpa : (a.id == idv && a.userId == owner) = true
      · have haid : a.id = idv := by
          simp only [Bool.and_eq_true, beq_iff_eq] at hpa
          exact hpa.1
        have hzero : as.countP (fun t => t.id == idv && t.userId == owner) = 0 := by
          apply List.countP_eq_zero.mpr
          intro t ht
          have hne := ha t ht
          simp only [Bool.and_eq_true, beq_iff_eq, not_and]
          intro hti
          exact (hne (haid.trans hti.symm)).elim
        simp [List.countP_cons, hpa, hzero]
      · have := ih has
        simp only [List.countP_cons, if_neg hpa]
        omega

/-- In a store with pairwise-distinct ids, two stored tasks with the
same id are the same task. -/
theorem eq_of_mem_pairwise_id {l : List Task}
    (h : l.Pairwise (fun a b => a.id ≠ b.id)) {u v : Task}
    (hu : u ∈ l) (hv : v ∈ l) (hid : u.id = v.id) : u = v := by
  induction l with
  | nil => cases hu
  | cons a as ih =>
      rcases List.pairwise_cons.mp h with ⟨ha, has⟩
      rcases List.mem_cons.mp hu with hu1 | hu1
      · rcases List.mem_cons.mp hv with hv1 | hv1
        · rw [hu1, hv1]
        · exact absurd hid (hu1 ▸ ha v hv1)
      · rcases List.mem_cons.mp hv with hv1 | hv1
        · exact absurd hid.symm (hv1 ▸ ha u hu1)
        · exact ih has hu1 hv1

/-- Membership in `insertGroup`. -/
theorem mem_insertGroup {u g : String × List Task} {l : List (String × List Task)} :
    u ∈ insertGroup g l ↔ u = g ∨ u ∈ l := by
  induction l with
  | nil => simp [insertGroup]
  | cons a as ih =>
      by_cases hga : strLE a.1 g.1
      · simp only [insertGroup, if_pos hga, List.mem_cons, ih]
        tauto
      · simp only [insertGroup, if_neg hga, List.mem_cons]

/-- Sorting the groups does not change membership. -/
theorem mem_sortGroups {u : String × List Task} {l : List (String × List Task)} :
    u ∈ sortGroups l ↔ u ∈ l := by
  induction l with
  | nil => simp [sortGroups]
  | cons a as ih => simp [sortGroups, mem_insertGroup, ih]

/-- Invariant of the group-by-date fold: starting from groups that are
all non-empty, every group stays non-empty. -/
theorem groupByDate_aux (ts : List Task) :
    ∀ acc : List (String × List Task), (∀ g ∈ acc, g.2 ≠ []) →
      ∀ g ∈ ts.foldl (fun acc t =>
          if acc.any (fun g => g.1 == t.date) then
            acc.map (fun g => if g.1 == t.date then (g.1, g.2 ++ [t]) else g)
          else acc ++ [(t.date, [t])]) acc, g.2 ≠ [] := by
  induction ts with
  | nil =>
      intro acc hbase
      simpa using hbase
  | cons t ts ih =>
      intro acc hbase
      simp only [List.foldl_cons]
      apply ih
      by_cases hmem : acc.any (fun g => g.1 == t.date)
      · rw [if_pos hmem]
        intro g hg
        rcases List.mem_map.mp hg with ⟨g0, hg0, rfl⟩
        by_cases hd : g0.1 = t.date
        · simp [hd]
        · simpa [hd] using hbase g0 hg0
      · rw [if_neg hmem]
        intro g hg
        rcases List.mem_append.mp hg with h1 | h1
        · exact hbase g h1
        · rcases List.mem_singleton.mp h1 with rfl
          simp

/-- Every group produced by `groupByDate` is non-empty: each group is
created carrying its first task and only ever grows. -/
theorem groupByDate_snd_ne_nil (ts : List Task) :
    ∀ g ∈ groupByDate ts, g.2 ≠ [] :=
  groupByDate_aux ts [] (by simp)

/-- Inversion of a successful `Task.create`: the created document
carries the authenticated owner, the fresh id, both timestamps at the
creation instant, the (trimmed) caller-supplied payload, and satisfies
the schema bounds. -/
theorem mongooseCreateTask_some {o f n : Nat} {d ti : String} {pr : Int}
    {c : String} {py : Int} {t : Task}
    (h : mongooseCreateTask o f n d ti pr c py = some t) :
    t.id = f ∧ t.userId = o ∧ t.createTime = n ∧ t.updateTime = n ∧
      t.date = d ∧ t.title = strTrim ti ∧ t.category = strTrim c ∧
      t.progress = pr ∧ t.priority = py ∧
      0 ≤ t.progress ∧ t.progress ≤ 100 ∧ 1 ≤ t.priority ∧ t.priority ≤ 3 := by
  simp only [mongooseCreateTask] at h
  split_ifs at h with h1 h2 h3 h4
  rcases Option.some_inj.mp h with rfl
  push_neg at h3 h4
  refine ⟨rfl, rfl, rfl, rfl, rfl, rfl, rfl, rfl, rfl, ?_, ?_, ?_, ?_⟩ <;>
    dsimp only <;> omega

/-- Pre-filtering the store to the owner's documents does not change
the monthly selection (`monthTasks` already conjoins the owner
filter). -/
theorem monthTasks_filter_owner (s : Store) (o y m : Nat) :
    monthTasks (s.filter (fun u => u.userId == o)) o y m = monthTasks s o y m := by
  unfold monthTasks
  rw [List.filter_filter]
  apply List.filter_congr
  intro t _
  cases h : (t.userId == o) <;> simp [h]

/-- Pre-filtering the store to the owner's documents does not change
the `$match` stage of the daily-completion aggregate. -/
theorem ownerTasks_filter_owner (s : Store) (o : Nat) :
    ownerTasks (s.filter (fun u => u.userId == o)) o = ownerTasks s o := by
  unfold ownerTasks
  rw [List.filter_filter]
  apply List.filter_congr
  intro t _
  cases h : (t.userId == o) <;> simp [h]

/-! ## Reachable stores

The stores reachable from an empty collection through the public
mutation routes, under arbitrary interleavings of callers. -/

/-- One public mutation request. -/
inductive Op where
  | opCreate (ownerId freshId now : Nat) (b : CreateBody)
  | opUpdate (ownerId id : Nat) (b : UpdateBody) (now : Nat)
  | opProgress (ownerId id : Nat) (p : Option Int) (now : Nat)
  | opDelete (ownerId id : Nat)

/-- The store produced by running one request. -/
def execOp (s : Store) : Op → Store
  | .opCreate o f n b => (createTaskRoute s o f n b).2
  | .opUpdate o i b n => (updateTaskRoute s o i b n).2
  | .opProgress o i p n => (updateProgressRoute s o i p n).2
  | .opDelete o i => (deleteTaskRoute s o i).2

/-- Stores reachable from the empty collection through the routes. -/
inductive Reachable : Store → Prop where
  | nil : Reachable []
  | step (s : Store) (o : Op) : Reachable s → Reachable (execOp s o)

/-- The bounded-fields invariant of the data model. -/
def BoundedTask (t : Task) : Prop :=
  0 ≤ t.progress ∧ t.progress ≤ 100 ∧
    (t.priority = 1 ∨ t.priority = 2 ∨ t.priority = 3)

/-- The ECMA leap-year flag agrees with the Gregorian divisibility
rule. -/
theorem natIsLeap_iff (y : Nat) :
    natIsLeap y = true ↔ (4 ∣ y ∧ (¬ 100 ∣ y ∨ 400 ∣ y)) := by
  simp only [natIsLeap, Bool.or_eq_true, Bool.and_eq_true, beq_iff_eq,
    Bool.not_eq_true', beq_eq_false_iff_ne]
  omega

/-- A year is 365 or 366 epoch days long according to its leap flag. -/
theorem dayFromYear_succ_sub (y : Nat) (hy : 1970 ≤ y) :
    dayFromYear (y + 1) - dayFromYear y = 365 + (if natIsLeap y = true then 1 else 0) := by
  simp only [dayFromYear, natIsLeap, Bool.or_eq_true, Bool.and_eq_true, beq_iff_eq,
    Bool.not_eq_true', beq_eq_false_iff_ne]
  split
  · omega
  · omega

/-- The `new Date(year, month, 0).getDate()` computation produces the
true Gregorian length of the month, leap-year aware. -/
theorem jsLastDayOfMonth_eq_specLastDay (year month : Nat) (hy : 1970 ≤ year)
    (h1 : 1 ≤ month) (h2 : month ≤ 12) :
    jsLastDayOfMonth year month = specLastDay year month := by
  have hleap := natIsLeap_iff year
  have hsucc := dayFromYear_succ_sub year hy
  interval_cases month <;>
    simp only [jsLastDayOfMonth, monthStartDay, cumDays, specLastDay] <;>
    norm_num <;>
    by_cases hL : natIsLeap year = true <;>
    simp [hL] at hleap hsucc ⊢ <;>
    omega

/-! ## Claim theorems -/

/-- C1: Per-owner isolation. A task stored under owner `A` never
appears in any listing (`GET /api/tasks`, with or without a date),
range query (`GET /api/tasks/range`), or in the task set feeding
either aggregate (`monthly`, `daily-completion`) issued under a
different owner `B`; moreover `B`'s aggregates equal the aggregates of
`B`'s own documents alone, because every query conjoins its filter
with the caller's owner filter. (No read route takes a task id, so
supplying `A`'s task id gives `B` no further read channel.) -/
theorem per_owner_isolation (s : Store) (A B : Nat) (hAB : A ≠ B) (t : Task)
    (_hts : t ∈ s) (hA : t.userId = A) :
    (∀ d l, listTasksRoute s B d = .ok l → t ∉ l) ∧
    (∀ st en l, listRangeRoute s B (some st) (some en) = .ok l → t ∉ l) ∧
    (∀ y m, t ∉ monthTasks s B y m) ∧
    (t ∉ ownerTasks s B) ∧
    (∀ y m, monthlyRoute s B y m =
      monthlyRoute (s.filter (fun u => u.userId == B)) B y m) ∧
    (dailyCompletionRoute s B =
      dailyCompletionRoute (s.filter (fun u => u.userId == B)) B) := by
  have hBne : (t.userId == B) = false := by
    simp only [beq_eq_false_iff_ne, ne_eq, hA]
    exact hAB
  refine ⟨?_, ?_, ?_, ?_, ?_, ?_⟩
  · intro d l h ht
    simp only [listTasksRoute, ApiResult.ok.injEq] at h
    rw [← h, mem_sortTasks, List.mem_filter] at ht
    simp only [listFilter, hBne, Bool.false_and] at ht
    exact Bool.false_ne_true ht.2
  · intro st en l h ht
    simp only [listRangeRoute, ApiResult.ok.injEq] at h
    rw [← h, mem_sortTasks, List.mem_filter, hBne] at ht
    simpa using ht.2
  · intro y m ht
    rw [monthTasks, List.mem_filter, hBne] at ht
    simpa using ht.2
  · intro ht
    rw [ownerTasks, List.mem_filter, hBne] at ht
    simpa using ht.2
  · intro y m
    rw [monthlyRoute, monthlyRoute, monthTasks_filter_owner]
  · rw [dailyCompletionRoute, dailyCompletionRoute, ownerTasks_filter_owner]

/-- C1 witness: concrete two-owner store; owner 2 never sees owner 1's
task. -/
theorem per_owner_isolation_witness :
    (∀ d l, listTasksRoute [⟨1, 1, "2024-05-01", "a", 10, "general", 1, 0, 0⟩,
        ⟨2, 2, "2024-05-01", "b", 20, "general", 1, 0, 0⟩] 2 d = .ok l →
      (⟨1, 1, "2024-05-01", "a", 10, "general", 1, 0, 0⟩ : Task) ∉ l) ∧
    (∀ st en l, listRangeRoute [⟨1, 1, "2024-05-01", "a", 10, "general", 1, 0, 0⟩,
        ⟨2, 2, "2024-05-01", "b", 20, "general", 1, 0, 0⟩] 2 (some st) (some en) = .ok l →
      (⟨1, 1, "2024-05-01", "a", 10, "general", 1, 0, 0⟩ : Task) ∉ l) ∧
    (∀ y m, (⟨1, 1, "2024-05-01", "a", 10, "general", 1, 0, 0⟩ : Task) ∉
      monthTasks [⟨1, 1, "2024-05-01", "a", 10, "general", 1, 0, 0⟩,
        ⟨2, 2, "2024-05-01", "b", 20, "general", 1, 0, 0⟩] 2 y m) ∧
    ((⟨1, 1, "2024-05-01", "a", 10, "general", 1, 0, 0⟩ : Task) ∉
      ownerTasks [⟨1, 1, "2024-05-01", "a", 10, "general", 1, 0, 0⟩,
        ⟨2, 2, "2024-05-01", "b", 20, "general", 1, 0, 0⟩] 2) ∧
    (∀ y m, monthlyRoute [⟨1, 1, "2024-05-01", "a", 10, "general", 1, 0, 0⟩,
        ⟨2, 2, "2024-05-01", "b", 20, "general", 1, 0, 0⟩] 2 y m =
      monthlyRoute ([⟨1, 1, "2024-05-01", "a", 10, "general", 1, 0, 0⟩,
        ⟨2, 2, "2024-05-01", "b", 20, "general", 1, 0, 0⟩].filter
          (fun u => u.userId == 2)) 2 y m) ∧
    (dailyCompletionRoute [⟨1, 1, "2024-05-01", "a", 10, "general", 1, 0, 0⟩,
        ⟨2, 2, "2024-05-01", "b", 20, "general", 1, 0, 0⟩] 2 =
      dailyCompletionRoute ([⟨1, 1, "2024-05-01", "a", 10, "general", 1, 0, 0⟩,
        ⟨2, 2, "2024-05-01", "b", 20, "general", 1, 0, 0⟩].filter
          (fun u => u.userId == 2)) 2) :=
  per_owner_isolation
    [⟨1, 1, "2024-05-01", "a", 10, "general", 1, 0, 0⟩,
     ⟨2, 2, "2024-05-01", "b", 20, "general", 1, 0, 0⟩] 1 2 (by decide)
    ⟨1, 1, "2024-05-01", "a", 10, "general", 1, 0, 0⟩ (by decide) (by decide)

/-- C2 counterexample: the owner of a task calls `PUT /api/tasks/:id`
with a body containing `userId: 2`; because the handler spreads the
whole request body into the update document, the stored task's owner
changes from 1 to 2 — refuting both "ownerId after each operation
equals its ownerId at creation" and "no other stored field is ever
modified". -/
theorem owner_immutability_counterexample :
    (updateTaskRoute [⟨5, 1, "2024-05-01", "t", 0, "general", 1, 0, 0⟩] 1 5
        ⟨none, none, none, none, none, some 2, none, none⟩ 7).2 =
      [⟨5, 2, "2024-05-01", "t", 0, "general", 1, 0, 7⟩] ∧
    ¬ (∀ u ∈ (updateTaskRoute [⟨5, 1, "2024-05-01", "t", 0, "general", 1, 0, 0⟩] 1 5
        ⟨none, none, none, none, none, some 2, none, none⟩ 7).2, u.userId = 1) := by
  decide

/-- C2 (amended): when the update body carries no forged `userId` or
`createTime` field, a successful `PUT /api/tasks/:id` preserves the
task's owner and creation time, refreshes `updateTime`, and leaves
every unsupplied field unchanged. -/
theorem owner_immutability_amended (s : Store) (owner idv now : Nat) (b : UpdateBody)
    (huser : b.userId = none) (hcreate : b.createTime = none) (hset : b.setOp = none)
    {t' : Task} {s' : Store}
    (h : updateTaskRoute s owner idv b now = (.ok t', s')) :
    ∃ t, t ∈ s ∧ t.id = idv ∧ t.userId = owner ∧
      t'.userId = t.userId ∧ t'.createTime = t.createTime ∧ t'.updateTime = now ∧
      (b.date = none → t'.date = t.date) ∧
      (b.title = none → t'.title = t.title) ∧
      (b.progress = none → t'.progress = t.progress) ∧
      (b.category = none → t'.category = t.category) ∧
      (b.priority = none → t'.priority = t.priority) := by
  simp only [updateTaskRoute] at h
  by_cases hv : updateValidate b = []
  · rw [if_pos hv] at h
    rcases hup : updateFirst (fun t => t.id == idv && t.userId == owner)
        (applyUpdateDoc b now) s with ⟨r1, r2⟩
    rw [hup] at h
    cases r1 with
    | none => exact absurd h (by simp)
    | some u =>
        have hfst : (updateFirst (fun t => t.id == idv && t.userId == owner)
            (applyUpdateDoc b now) s).1 = some u := by rw [hup]
        obtain ⟨t, ht, hpt, hu⟩ := updateFirst_fst_some hfst
        simp only [Bool.and_eq_true, beq_iff_eq] at hpt
        have ht' : t' = applyUpdateDoc b now t := by
          have : ApiResult.ok u = ApiResult.ok t' := congrArg Prod.fst h
          rw [hu] at this
          exact (ApiResult.ok.inj this).symm
        refine ⟨t, ht, hpt.1, hpt.2, ?_, ?_, ?_, ?_, ?_, ?_, ?_, ?_⟩ <;>
          simp [ht', applyUpdateDoc, huser, hcreate, hset] <;>
          intro hnone <;> simp [hnone]
  · rw [if_neg hv] at h
    exact absurd h (by simp)

/-- C2 witness: a partial update supplying only `date` and `progress`
keeps the owner, the creation time, and the unsupplied fields. -/
theorem owner_immutability_amended_witness :
    ∃ t, t ∈ [(⟨5, 1, "2024-05-01", "t", 10, "general", 2, 3, 3⟩ : Task)] ∧
      t.id = 5 ∧ t.userId = 1 ∧
      (⟨5, 1, "2024-06-02", "t", 50, "general", 2, 3, 9⟩ : Task).userId = t.userId ∧
      (⟨5, 1, "2024-06-02", "t", 50, "general", 2, 3, 9⟩ : Task).createTime = t.createTime ∧
      (⟨5, 1, "2024-06-02", "t", 50, "general", 2, 3, 9⟩ : Task).updateTime = 9 ∧
      ((⟨some "2024-06-02", none, some 50, none, none, none, none, none⟩ : UpdateBody).date = none →
        (⟨5, 1, "2024-06-02", "t", 50, "general", 2, 3, 9⟩ : Task).date = t.date) ∧
      ((⟨some "2024-06-02", none, some 50, none, none, none, none, none⟩ : UpdateBody).title = none →
        (⟨5, 1, "2024-06-02", "t", 50, "general", 2, 3, 9⟩ : Task).title = t.title) ∧
      ((⟨some "2024-06-02", none, some 50, none, none, none, none, none⟩ : UpdateBody).progress = none →
        (⟨5, 1, "2024-06-02", "t", 50, "general", 2, 3, 9⟩ : Task).progress = t.progress) ∧
      ((⟨some "2024-06-02", none, some 50, none, none, none, none, none⟩ : UpdateBody).category = none →
        (⟨5, 1, "2024-06-02", "t", 50, "general", 2, 3, 9⟩ : Task).category = t.category) ∧
      ((⟨some "2024-06-02", none, some 50, none, none, none, none, none⟩ : UpdateBody).priority = none →
        (⟨5, 1, "2024-06-02", "t", 50, "general", 2, 3, 9⟩ : Task).priority = t.priority) :=
  @owner_immutability_amended [⟨5, 1, "2024-05-01", "t", 10, "general", 2, 3, 3⟩] 1 5 9
    ⟨some "2024-06-02", none, some 50, none, none, none, none, none⟩ rfl rfl rfl
    ⟨5, 1, "2024-06-02", "t", 50, "general", 2, 3, 9⟩
    [⟨5, 1, "2024-06-02", "t", 50, "general", 2, 3, 9⟩] (by decide)

/-- C3: Uniform NotFound. Delete, partial update (with a body passing
validation) and progress-only update (with an in-range value) answer
404 exactly when no stored document matches both the id and the
caller's owner — with one and the same outcome whether the id does not
exist at all or the document belongs to another owner; deleting a
nonexistent id answers 404, and (with Mongo's unique ids) deleting the
same id twice answers 404 on the second call. -/
theorem uniform_not_found (s : Store) (owner idv : Nat) :
    (deleteTaskRoute s owner idv = (.notFound, s) ↔
      ∀ t ∈ s, ¬ (t.id = idv ∧ t.userId = owner)) ∧
    (∀ b now, updateValidate b = [] →
      ((updateTaskRoute s owner idv b now).1 = .notFound ↔
        ∀ t ∈ s, ¬ (t.id = idv ∧ t.userId = owner))) ∧
    (∀ p : Int, ∀ now, 0 ≤ p → p ≤ 100 →
      ((updateProgressRoute s owner idv (some p) now).1 = .notFound ↔
        ∀ t ∈ s, ¬ (t.id = idv ∧ t.userId = owner))) ∧
    ((∀ t ∈ s, t.id ≠ idv) → deleteTaskRoute s owner idv = (.notFound, s)) ∧
    ((∀ t ∈ s, t.id = idv → t.userId ≠ owner) →
      deleteTaskRoute s owner idv = (.notFound, s)) ∧
    (s.Pairwise (fun a b => a.id ≠ b.id) →
      (deleteTaskRoute (deleteTaskRoute s owner idv).2 owner idv).1 = .notFound) := by
  have hP : ∀ t : Task, ((t.id == idv && t.userId == owner) = false ↔
      ¬ (t.id = idv ∧ t.userId = owner)) := by
    intro t
    rw [Bool.eq_false_iff]
    simp [Bool.and_eq_true, beq_iff_eq]
  have hdel : ∀ s2 : Store, (deleteTaskRoute s2 owner idv = (.notFound, s2) ↔
      ∀ t ∈ s2, ¬ (t.id = idv ∧ t.userId = owner)) := by
    intro s2
    rcases hrm : removeFirst (fun t => t.id == idv && t.userId == owner) s2 with ⟨r1, r2⟩
    cases r1 with
    | none =>
        have hnone : ∀ t ∈ s2, (t.id == idv && t.userId == owner) = false :=
          (removeFirst_fst_none_iff _ _).mp (by rw [hrm])
        constructor
        · intro _ t ht
          exact (hP t).mp (hnone t ht)
        · intro _
          simp [deleteTaskRoute, hrm]
    | some u =>
        constructor
        · intro h
          rw [deleteTaskRoute, hrm] at h
          exact absurd (congrArg Prod.fst h) (by simp)
        · intro h
          have : (removeFirst (fun t => t.id == idv && t.userId == owner) s2).1 = none :=
            (removeFirst_fst_none_iff _ _).mpr (fun t ht => (hP t).mpr (h t ht))
          rw [hrm] at this
          cases this
  refine ⟨hdel s, ?_, ?_, ?_, ?_, ?_⟩
  · intro b now hv
    rw [updateTaskRoute, if_pos hv]
    rcases hup : updateFirst (fun t => t.id == idv && t.userId == owner)
        (applyUpdateDoc b now) s with ⟨r1, r2⟩
    cases r1 with
    | none =>
        have hnone : ∀ t ∈ s, (t.id == idv && t.userId == owner) = false :=
          (updateFirst_fst_none_iff _ _ _).mp (by rw [hup])
        simp only [iff_true_intro (fun t ht => (hP t).mp (hnone t ht)), iff_true]
    | some u =>
        constructor
        · intro h
          cases h
        · intro h
          have : (updateFirst (fun t => t.id == idv && t.userId == owner)
              (applyUpdateDoc b now) s).1 = none :=
            (updateFirst_fst_none_iff _ _ _).mpr (fun t ht => (hP t).mpr (h t ht))
          rw [hup] at this
          cases this
  · intro p now h0 h100
    have hv : progressValidate (some p) = [] := by
      simp only [progressValidate, if_neg (by omega : ¬ (p < 0 ∨ 100 < p))]
    rw [updateProgressRoute, if_pos hv]
    rcases hup : updateFirst (fun t => t.id == idv && t.userId == owner)
        (fun t => { t with progress := (some p).getD t.progress, updateTime := now }) s
      with ⟨r1, r2⟩
    cases r1 with
    | none =>
        have hnone : ∀ t ∈ s, (t.id == idv && t.userId == owner) = false :=
          (updateFirst_fst_none_iff _ _ _).mp (by rw [hup])
        simp only [iff_true_intro (fun t ht => (hP t).mp (hnone t ht)), iff_true]
    | some u =>
        constructor
        · intro h
          cases h
        · intro h
          have : (updateFirst (fun t => t.id == idv && t.userId == owner)
              (fun t => { t with progress := (some p).getD t.progress, updateTime := now })
                s).1 = none :=
            (updateFirst_fst_none_iff _ _ _).mpr (fun t ht => (hP t).mpr (h t ht))
          rw [hup] at this
          cases this
  · intro h
    exact (hdel s).mpr (fun t ht hc => h t ht hc.1)
  · intro h
    exact (hdel s).mpr (fun t ht hc => h t ht hc.1 hc.2)
  · intro hids
    rcases hrm : removeFirst (fun t => t.id == idv && t.userId == owner) s with ⟨r1, r2⟩
    cases r1 with
    | none =>
        have hsnd : (deleteTaskRoute s owner idv).2 = s := by
          simp [deleteTaskRoute, hrm]
        rw [hsnd]
        have hnone : ∀ t ∈ s, (t.id == idv && t.userId == owner) = false :=
          (removeFirst_fst_none_iff _ _).mp (by rw [hrm])
        have := (hdel s).mpr (fun t ht => (hP t).mp (hnone t ht))
        rw [this]
    | some u =>
        have hsnd : (deleteTaskRoute s owner idv).2 = r2 := by
          simp [deleteTaskRoute, hrm]
        rw [hsnd]
        have hcount1 : r2.countP (fun t => t.id == idv && t.userId == owner) + 1 =
            s.countP (fun t => t.id == idv && t.userId == owner) := by
          have := removeFirst_countP (p := fun t => t.id == idv && t.userId == owner)
            (l := s) (by rw [hrm]; simp)
          rw [hrm] at this
          exact this
        have hle := countP_le_one_of_pairwise_id idv owner s hids
        have hzero : r2.countP (fun t => t.id == idv && t.userId == owner) = 0 := by omega
        have hnomatch : ∀ t ∈ r2, ¬ (t.id = idv ∧ t.userId = owner) := by
          intro t ht
          exact (hP t).mp (Bool.eq_false_iff.mpr (List.countP_eq_zero.mp hzero t ht))
        rw [(hdel r2).mpr hnomatch]

/-- C3 witness: deleting a nonexistent id, an id of another owner, and
the same id twice. -/
theorem uniform_not_found_witness :
    (deleteTaskRoute [⟨5, 1, "2024-05-01", "t", 0, "general", 1, 0, 0⟩] 1 9 =
        (.notFound, [⟨5, 1, "2024-05-01", "t", 0, "general", 1, 0, 0⟩]) ↔
      ∀ t ∈ [(⟨5, 1, "2024-05-01", "t", 0, "general", 1, 0, 0⟩ : Task)],
        ¬ (t.id = 9 ∧ t.userId = 1)) ∧
    (∀ b now, updateValidate b = [] →
      ((updateTaskRoute [⟨5, 1, "2024-05-01", "t", 0, "general", 1, 0, 0⟩] 1 9 b now).1 =
          .notFound ↔
        ∀ t ∈ [(⟨5, 1, "2024-05-01", "t", 0, "general", 1, 0, 0⟩ : Task)],
          ¬ (t.id = 9 ∧ t.userId = 1))) ∧
    (∀ p : Int, ∀ now, 0 ≤ p → p ≤ 100 →
      ((updateProgressRoute [⟨5, 1, "2024-05-01", "t", 0, "general", 1, 0, 0⟩] 1 9
          (some p) now).1 = .notFound ↔
        ∀ t ∈ [(⟨5, 1, "2024-05-01", "t", 0, "general", 1, 0, 0⟩ : Task)],
          ¬ (t.id = 9 ∧ t.userId = 1))) ∧
    ((∀ t ∈ [(⟨5, 1, "2024-05-01", "t", 0, "general", 1, 0, 0⟩ : Task)], t.id ≠ 9) →
      deleteTaskRoute [⟨5, 1, "2024-05-01", "t", 0, "general", 1, 0, 0⟩] 1 9 =
        (.notFound, [⟨5, 1, "2024-05-01", "t", 0, "general", 1, 0, 0⟩])) ∧
    ((∀ t ∈ [(⟨5, 1, "2024-05-01", "t", 0, "general", 1, 0, 0⟩ : Task)],
        t.id = 9 → t.userId ≠ 1) →
      deleteTaskRoute [⟨5, 1, "2024-05-01", "t", 0, "general", 1, 0, 0⟩] 1 9 =
        (.notFound, [⟨5, 1, "2024-05-01", "t", 0, "general", 1, 0, 0⟩])) ∧
    (List.Pairwise (fun a b => a.id ≠ b.id)
        [(⟨5, 1, "2024-05-01", "t", 0, "general", 1, 0, 0⟩ : Task)] →
      (deleteTaskRoute
        (deleteTaskRoute [⟨5, 1, "2024-05-01", "t", 0, "general", 1, 0, 0⟩] 1 9).2 1 9).1 =
        .notFound) :=
  uniform_not_found [⟨5, 1, "2024-05-01", "t", 0, "general", 1, 0, 0⟩] 1 9

/-- C4 counterexample: a title consisting of a single space is
non-empty, so the route's `notEmpty()` validator (which does not trim)
passes; `Task.create` then trims it, the schema's `required` check
fails, and the route's `catch` answers 500 — an internal error, not the
400 validation outcome the claim requires. -/
theorem title_validation_counterexample :
    createTaskRoute [] 1 10 5
        ⟨some "2024-05-01", some " ", none, none, none, none, none, none, none⟩ =
      (.internalError, []) ∧
    (createTaskRoute [] 1 10 5
        ⟨some "2024-05-01", some " ", none, none, none, none, none, none, none⟩).1.isValidationError
      = false := by
  decide

/-- C4 (amended): a missing or empty title is rejected by the route
validators with the 400 validation outcome and nothing is persisted; a
non-empty whitespace-only title passes the route validators (whose
`notEmpty()` does not trim) and is instead rejected by the schema's
required-after-trim check, surfacing as a 500 internal error — still
with nothing persisted. -/
theorem title_validation_amended (s : Store) (owner fid now : Nat) (b : CreateBody) :
    ((b.title = none ∨ b.title = some "") →
      (createTaskRoute s owner fid now b).1.isValidationError = true ∧
      (createTaskRoute s owner fid now b).2 = s) ∧
    (∀ w, b.title = some w → w ≠ "" → strTrim w = "" → createValidate b = [] →
      createTaskRoute s owner fid now b = (.internalError, s)) := by
  constructor
  · intro h
    have hne : createValidate b ≠ [] := by
      rcases h with h | h <;> simp [createValidate, h]
    simp only [createTaskRoute]
    rw [if_neg hne]
    exact ⟨rfl, rfl⟩
  · intro w hw hwne htrim hv
    simp only [createTaskRoute]
    rw [if_pos hv]
    by_cases hde : b.date.getD "" = ""
    · simp [mongooseCreateTask, hde]
    · simp [mongooseCreateTask, hde, hw, htrim]

/-- C4 witness: the empty title gets the 400 outcome; the one-space
title gets the 500 outcome; neither persists anything. -/
theorem title_validation_amended_witness :
    ((createTaskRoute [] 7 3 11
        ⟨some "2024-05-01", some "", none, none, none, none, none, none, none⟩).1.isValidationError
        = true ∧
      (createTaskRoute [] 7 3 11
        ⟨some "2024-05-01", some "", none, none, none, none, none, none, none⟩).2 = []) ∧
    createTaskRoute [] 7 3 11
        ⟨some "2024-05-01", some " ", none, none, none, none, none, none, none⟩ =
      (.internalError, []) :=
  ⟨(title_validation_amended [] 7 3 11
      ⟨some "2024-05-01", some "", none, none, none, none, none, none, none⟩).1 (Or.inr rfl),
   (title_validation_amended [] 7 3 11
      ⟨some "2024-05-01", some " ", none, none, none, none, none, none, none⟩).2
     " " rfl (by decide) (by decide) (by decide)⟩

/-- In-range bounds of a validated update body, extracted from an
empty validation-error list. -/
theorem updateValidate_nil_progress {b : UpdateBody} (hv : updateValidate b = [])
    {q : Int} (hq : b.progress = some q) : 0 ≤ q ∧ q ≤ 100 := by
  have h1 := hv
  simp only [updateValidate, hq] at h1
  rcases List.append_eq_nil.mp h1 with ⟨h2, _⟩
  by_cases hc : q < 0 ∨ 100 < q
  · rw [if_pos hc] at h2
    cases h2
  · push_neg at hc
    omega

/-- In-range bounds of a validated update body's priority. -/
theorem updateValidate_nil_priority {b : UpdateBody} (hv : updateValidate b = [])
    {q : Int} (hq : b.priority = some q) : 1 ≤ q ∧ q ≤ 3 := by
  have h1 := hv
  simp only [updateValidate, hq] at h1
  rcases List.append_eq_nil.mp h1 with ⟨_, h2⟩
  by_cases hc : q < 1 ∨ 3 < q
  · rw [if_pos hc] at h2
    cases h2
  · push_neg at hc
    omega

/-- An update request whose body carries no Mongo update-operator key
(no `$set` document): the shape the PUT route's validators can fully
inspect. Creates, progress updates and deletes carry no update
document a caller controls beyond their validated fields. -/
def PlainOp : Op → Prop
  | .opUpdate _ _ b _ => b.setOp = none
  | _ => True

/-- Stores reachable from the empty collection through the routes when
every partial-update body is operator-free. -/
inductive ReachablePlain : Store → Prop where
  | nil : ReachablePlain []
  | step (s : Store) (o : Op) : PlainOp o → ReachablePlain s → ReachablePlain (execOp s o)

/-- C5 counterexample: the body `{"$set": {"progress": 500}}` has none
of the validated top-level fields, so every route validator passes;
the spread forwards it to `findOneAndUpdate`, which applies it without
schema validation (`runValidators` is off) — the route answers 200 and
the store, reachable through public operations only, now holds
`progress = 500`, refuting the bounds invariant as claimed. -/
theorem bounded_fields_counterexample :
    (updateTaskRoute [⟨5, 1, "2024-05-01", "t", 0, "general", 1, 0, 0⟩] 1 5
        ⟨none, none, none, none, none, none, none,
          some ⟨none, none, some 500, none, none, none, none⟩⟩ 1).1 =
      .ok ⟨5, 1, "2024-05-01", "t", 500, "general", 1, 0, 1⟩ ∧
    Reachable [⟨5, 1, "2024-05-01", "t", 500, "general", 1, 0, 1⟩] ∧
    ¬ (∀ s, Reachable s → ∀ t ∈ s, BoundedTask t) := by
  have h1 : Reachable (execOp [] (Op.opCreate 1 5 0
      ⟨some "2024-05-01", some "t", none, none, none, none, none, none, none⟩)) :=
    Reachable.step _ _ Reachable.nil
  have h2 := Reachable.step _ (Op.opUpdate 1 5
    ⟨none, none, none, none, none, none, none,
      some ⟨none, none, some 500, none, none, none, none⟩⟩ 1) h1
  have heq : execOp (execOp [] (Op.opCreate 1 5 0
      ⟨some "2024-05-01", some "t", none, none, none, none, none, none, none⟩))
      (Op.opUpdate 1 5 ⟨none, none, none, none, none, none, none,
        some ⟨none, none, some 500, none, none, none, none⟩⟩ 1) =
      [⟨5, 1, "2024-05-01", "t", 500, "general", 1, 0, 1⟩] := by decide
  rw [heq] at h2
  refine ⟨by decide, h2, ?_⟩
  intro h
  have hb := h _ h2 ⟨5, 1, "2024-05-01", "t", 500, "general", 1, 0, 1⟩ (by decide)
  exact absurd hb.2.1 (by decide)

/-- C5 (amended): every task in every store reachable through the
public routes with operator-free partial-update bodies satisfies
`0 ≤ progress ≤ 100` and `priority ∈ {1,2,3}`; any create, partial
update or progress update supplying an out-of-range top-level
`progress` or `priority` is answered with the 400 validation outcome
while the store is left untouched — the value is never clamped into
range. (A body smuggling a Mongo `$set` operator document evades the
route validators and can store out-of-range values, as the
counterexample shows.) -/
theorem bounded_fields_amended :
    (∀ s, ReachablePlain s → ∀ t ∈ s, BoundedTask t) ∧
    (∀ s owner fid now (b : CreateBody) (p : Int),
      ((b.progress = some p ∧ (p < 0 ∨ 100 < p)) ∨
        (b.priority = some p ∧ (p < 1 ∨ 3 < p))) →
      (createTaskRoute s owner fid now b).1.isValidationError = true ∧
      (createTaskRoute s owner fid now b).2 = s) ∧
    (∀ s owner idv now (b : UpdateBody) (p : Int),
      ((b.progress = some p ∧ (p < 0 ∨ 100 < p)) ∨
        (b.priority = some p ∧ (p < 1 ∨ 3 < p))) →
      (updateTaskRoute s owner idv b now).1.isValidationError = true ∧
      (updateTaskRoute s owner idv b now).2 = s) ∧
    (∀ s owner idv now (p : Int), (p < 0 ∨ 100 < p) →
      (updateProgressRoute s owner idv (some p) now).1.isValidationError = true ∧
      (updateProgressRoute s owner idv (some p) now).2 = s) := by
  refine ⟨?_, ?_, ?_, ?_⟩
  · intro s hs
    induction hs with
    | nil =>
        intro t ht
        cases ht
    | step s0 op hplain ha ih =>
        intro t ht
        cases op with
        | opCreate o f n b =>
            simp only [execOp, createTaskRoute] at ht
            by_cases hv : createValidate b = []
            · rw [if_pos hv] at ht
              rcases hmc : mongooseCreateTask o f n (b.date.getD "") (b.title.getD "")
                  (b.progress.getD 0) (b.category.getD "general") (b.priority.getD 1)
                with _ | u
              · rw [hmc] at ht
                exact ih t ht
              · rw [hmc] at ht
                simp only at ht
                rcases List.mem_append.mp ht with h1 | h1
                · exact ih t h1
                · rcases List.mem_singleton.mp h1 with rfl
                  obtain ⟨_, _, _, _, _, _, _, _, _, h0, h100, h1p, h3p⟩ :=
                    mongooseCreateTask_some hmc
                  exact ⟨h0, h100, by omega⟩
            · rw [if_neg hv] at ht
              exact ih t ht
        | opUpdate o i b n =>
            have hset : b.setOp = none := hplain
            simp only [execOp, updateTaskRoute] at ht
            by_cases hv : updateValidate b = []
            · rw [if_pos hv] at ht
              rcases hup : updateFirst (fun t => t.id == i && t.userId == o)
                  (applyUpdateDoc b n) s0 with ⟨r1, r2⟩
              rw [hup] at ht
              cases r1 with
              | none =>
                  simp only at ht
                  exact ih t ht
              | some u =>
                  simp only at ht
                  have ht2 : t ∈ (updateFirst (fun t => t.id == i && t.userId == o)
                      (applyUpdateDoc b n) s0).2 := by rw [hup]; exact ht
                  rcases updateFirst_snd_mem ht2 with h1 | ⟨t0, ht0, _, rfl⟩
                  · exact ih t h1
                  · obtain ⟨hp0, hp100, hpri⟩ := ih t0 ht0
                    refine ⟨?_, ?_, ?_⟩
                    · rcases hq : b.progress with _ | q
                      · simpa [applyUpdateDoc, hq, hset] using hp0
                      · have := updateValidate_nil_progress hv hq
                        simp [applyUpdateDoc, hq]
                        omega
                    · rcases hq : b.progress with _ | q
                      · simpa [applyUpdateDoc, hq, hset] using hp100
                      · have := updateValidate_nil_progress hv hq
                        simp [applyUpdateDoc, hq]
                        omega
                    · rcases hq : b.priority with _ | q
                      · simpa [applyUpdateDoc, hq, hset] using hpri
                      · have := updateValidate_nil_priority hv hq
                        simp [applyUpdateDoc, hq]
                        omega
            · rw [if_neg hv] at ht
              exact ih t ht
        | opProgress o i p n =>
            simp only [execOp, updateProgressRoute] at ht
            by_cases hv : progressValidate p = []
            · rw [if_pos hv] at ht
              rcases hp : p with _ | q
              · rw [hp] at hv
                simp [progressValidate] at hv
              · have hq : 0 ≤ q ∧ q ≤ 100 := by
                  rw [hp] at hv
                  by_cases hc : q < 0 ∨ 100 < q
                  · rw [progressValidate, if_pos hc] at hv
                    cases hv
                  · push_neg at hc
                    omega
                rw [hp] at ht
                rcases hup : updateFirst (fun t => t.id == i && t.userId == o) (fun t => { t with progress := (some q).getD t.progress, updateTime := n }) s0 with ⟨r1, r2⟩
                rw [hup] at ht
                cases r1 with
                | none =>
                    simp only at ht
                    exact ih t ht
                | some u =>
                    simp only at ht
                    have ht2 : t ∈ (updateFirst (fun t => t.id == i && t.userId == o) (fun t => { t with progress := (some q).getD t.progress, updateTime := n }) s0).2 := by rw [hup]; exact ht
                    rcases updateFirst_snd_mem ht2 with h1 | ⟨t0, ht0, _, rfl⟩
                    · exact ih t h1
                    · obtain ⟨_, _, hpri⟩ := ih t0 ht0
                      exact ⟨by simpa using hq.1, by simpa using hq.2, by simpa using hpri⟩
            · rw [if_neg hv] at ht
              exact ih t ht
        | opDelete o i =>
            simp only [execOp, deleteTaskRoute] at ht
            rcases hrm : removeFirst (fun t => t.id == i && t.userId == o) s0 with ⟨r1, r2⟩
            rw [hrm] at ht
            cases r1 with
            | none =>
                simp only at ht
                exact ih t ht
            | some u =>
                simp only at ht
                have ht2 : t ∈ (removeFirst (fun t => t.id == i && t.userId == o) s0).2 := by
                  rw [hrm]
                  exact ht
                exact ih t (removeFirst_snd_subset ht2)
  · intro s owner fid now b p hout
    have hne : createValidate b ≠ [] := by
      rcases hout with ⟨hp, hc | hc⟩ | ⟨hp, hc | hc⟩ <;> simp [createValidate, hp, hc]
    simp only [createTaskRoute]
    rw [if_neg hne]
    exact ⟨rfl, rfl⟩
  · intro s owner idv now b p hout
    have hne : updateValidate b ≠ [] := by
      rcases hout with ⟨hp, hc | hc⟩ | ⟨hp, hc | hc⟩ <;> simp [updateValidate, hp, hc]
    simp only [updateTaskRoute]
    rw [if_neg hne]
    exact ⟨rfl, rfl⟩
  · intro s owner idv now p hout
    have hne : progressValidate (some p) ≠ [] := by
      rcases hout with hc | hc <;> simp [progressValidate, hc]
    simp only [updateProgressRoute]
    rw [if_neg hne]
    exact ⟨rfl, rfl⟩

/-- C5 witness: a store reached by one valid create is bounded, and a
concrete out-of-range progress (150) is rejected without a store
change. -/
theorem bounded_fields_amended_witness :
    (∀ t ∈ execOp []
        (Op.opCreate 1 1 0 ⟨some "2024-05-01", some "t", some 50, none, some 2,
          none, none, none, none⟩), BoundedTask t) ∧
    ((createTaskRoute [] 1 1 0 ⟨some "2024-05-01", some "t", some 150, none, none,
        none, none, none, none⟩).1.isValidationError = true ∧
      (createTaskRoute [] 1 1 0 ⟨some "2024-05-01", some "t", some 150, none, none,
        none, none, none, none⟩).2 = []) ∧
    ((updateProgressRoute [] 1 1 (some 101) 0).1.isValidationError = true ∧
      (updateProgressRoute [] 1 1 (some 101) 0).2 = []) :=
  ⟨bounded_fields_amended.1 _ (ReachablePlain.step [] _ (by trivial) ReachablePlain.nil),
   bounded_fields_amended.2.1 [] 1 1 0 _ 150 (Or.inl ⟨rfl, by decide⟩),
   bounded_fields_amended.2.2.2 [] 1 1 0 101 (by decide)⟩

/-- C6: Round-half-up averages. `Math.round` on an integer quotient is
exactly the spec's "add one half and truncate" rule; every average
reported by the monthly aggregate (overall and per date group) and by
the daily-completion aggregate equals the group's progress sum divided
by its count under that rule; and progress values `[10, 20, 21]` on one
day yield the daily average `17`. -/
theorem round_half_up_averages (s : Store) (owner year month : Nat)
    (stats : MonthlyStats) (hm : monthlyRoute s owner year month = .ok stats) :
    (∀ n : ℤ, ∀ d : Nat, mathRound ((n : ℚ) / (d : ℚ)) = specAvg n d) ∧
    (∀ q : ℚ, mathRound q = round q) ∧
    (stats.averageProgress =
      if (monthTasks s owner year month).length = 0 then 0
      else specAvg (sumProgress (monthTasks s owner year month))
        (monthTasks s owner year month).length) ∧
    (stats.daily = (groupByDate (monthTasks s owner year month)).map (fun g =>
      ⟨g.1, g.2.length, specAvg (sumProgress g.2) g.2.length⟩)) ∧
    (∀ l, dailyCompletionRoute s owner = .ok l →
      l = (sortGroups (groupByDate (ownerTasks s owner))).map (fun g =>
        ⟨g.1, specAvg (sumProgress g.2) g.2.length, g.2.length⟩)) ∧
    (dailyCompletionRoute [⟨1, 1, "2024-05-01", "a", 10, "general", 1, 0, 0⟩,
        ⟨2, 1, "2024-05-01", "b", 20, "general", 1, 1, 1⟩,
        ⟨3, 1, "2024-05-01", "c", 21, "general", 1, 2, 2⟩] 1 =
      .ok [⟨"2024-05-01", 17, 3⟩] ∧ specAvg 51 3 = 17) := by
  have hrw : ∀ n : ℤ, ∀ d : Nat, mathRound ((n : ℚ) / (d : ℚ)) = specAvg n d := by
    intro n d
    rw [mathRound_div]
    rfl
  have hstats : stats =
      ⟨(monthTasks s owner year month).length,
        (if (monthTasks s owner year month).length = 0 then 0
          else mathRound ((sumProgress (monthTasks s owner year month) : ℚ) /
            ((monthTasks s owner year month).length : ℚ))),
        (groupByDate (monthTasks s owner year month)).map (fun g =>
          ⟨g.1, g.2.length, mathRound ((sumProgress g.2 : ℚ) / (g.2.length : ℚ))⟩)⟩ := by
    by_cases hv : monthlyValidate year month = []
    · simp only [monthlyRoute] at hm
      rw [if_pos hv] at hm
      exact (ApiResult.ok.inj hm).symm
    · simp only [monthlyRoute] at hm
      rw [if_neg hv] at hm
      cases hm
  refine ⟨hrw, ?_, ?_, ?_, ?_, ?_, ?_⟩
  · intro q
    rw [mathRound, round_eq]
  · rw [hstats]
    by_cases h0 : (monthTasks s owner year month).length = 0 <;> simp [h0, hrw]
  · rw [hstats]
    apply List.map_congr_left
    intro g _
    rw [hrw]
  · intro l h
    simp only [dailyCompletionRoute, ApiResult.ok.injEq] at h
    rw [← h]
    apply List.map_congr_left
    intro g _
    rw [hrw]
  · simp only [dailyCompletionRoute, mathRound_div]
    decide
  · decide

/-- C6 witness: `Math.round(51/3) = 17` via the theorem applied to a
concrete monthly aggregate. -/
theorem round_half_up_averages_witness :
    mathRound ((51 : ℤ) / ((3 : Nat) : ℚ)) = specAvg 51 3 :=
  (round_half_up_averages
    [⟨1, 1, "2024-05-01", "a", 10, "general", 1, 0, 0⟩,
     ⟨2, 1, "2024-05-01", "b", 20, "general", 1, 1, 1⟩,
     ⟨3, 1, "2024-05-01", "c", 21, "general", 1, 2, 2⟩] 1 2024 5
    ⟨3, 17, [⟨"2024-05-01", 3, 17⟩]⟩
    (by simp only [monthlyRoute, mathRound_div]; decide)).1 51 3

/-- C7: Leap-year-aware month window. For a validated year and month,
the monthly aggregate selects exactly the caller's tasks whose date
string lies lexicographically between `YYYY-MM-01` and `YYYY-MM-d`
inclusive, where `d` is the true Gregorian last day of that month
(29 for February in leap years) and the month is zero-padded. -/
theorem month_window (s : Store) (owner year month : Nat) (hy : 1970 ≤ year)
    (h1 : 1 ≤ month) (h2 : month ≤ 12) (t : Task) :
    t ∈ monthTasks s owner year month ↔
      t ∈ s ∧ t.userId = owner ∧
        strLE (toString year ++ "-" ++ pad2 month ++ "-01") t.date = true ∧
        strLE t.date (toString year ++ "-" ++ pad2 month ++ "-" ++
          pad2 (specLastDay year month).toNat) = true := by
  have hend : monthEndString year month =
      toString year ++ "-" ++ pad2 month ++ "-" ++ pad2 (specLastDay year month).toNat := by
    rw [monthEndString, jsLastDayOfMonth_eq_specLastDay year month hy h1 h2]
  rw [monthTasks, List.mem_filter, hend, monthStartString]
  simp [Bool.and_eq_true, beq_iff_eq, and_assoc]

/-- C7 witness: 29 February 2024 falls inside the February 2024
window. -/
theorem month_window_witness :
    (⟨1, 1, "2024-02-29", "leap", 0, "general", 1, 0, 0⟩ : Task) ∈
      monthTasks [⟨1, 1, "2024-02-29", "leap", 0, "general", 1, 0, 0⟩] 1 2024 2 :=
  (month_window [⟨1, 1, "2024-02-29", "leap", 0, "general", 1, 0, 0⟩] 1 2024 2
      (by decide) (by decide) (by decide)
      ⟨1, 1, "2024-02-29", "leap", 0, "general", 1, 0, 0⟩).mpr
    ⟨by decide, rfl, by decide, by decide⟩

/-- C8: Empty month. A month with no matching tasks yields exactly
`{total: 0, averageProgress: 0, daily: []}`; and every per-group
average ever computed by the monthly or daily-completion aggregates
has a strictly positive count, so no zero-count division feeds any
reported figure. -/
theorem empty_month (s : Store) (owner year month : Nat)
    (hv : monthlyValidate year month = [])
    (hempty : monthTasks s owner year month = []) :
    monthlyRoute s owner year month = .ok ⟨0, 0, []⟩ ∧
    (∀ s2 o2 y2 m2 stats, monthlyRoute s2 o2 y2 m2 = .ok stats →
      ∀ d ∈ stats.daily, 0 < d.count) ∧
    (∀ s2 o2 l, dailyCompletionRoute s2 o2 = .ok l → ∀ d ∈ l, 0 < d.count) := by
  refine ⟨?_, ?_, ?_⟩
  · simp only [monthlyRoute, hempty]
    rw [if_pos hv]
    simp [groupByDate]
  · intro s2 o2 y2 m2 stats hm d hd
    by_cases hv2 : monthlyValidate y2 m2 = []
    · simp only [monthlyRoute] at hm
      rw [if_pos hv2] at hm
      rw [← ApiResult.ok.inj hm] at hd
      simp only at hd
      rcases List.mem_map.mp hd with ⟨g, hg, rfl⟩
      exact List.length_pos.mpr (groupByDate_snd_ne_nil _ g hg)
    · simp only [monthlyRoute] at hm
      rw [if_neg hv2] at hm
      cases hm
  · intro s2 o2 l h d hd
    simp only [dailyCompletionRoute, ApiResult.ok.injEq] at h
    rw [← h] at hd
    rcases List.mem_map.mp hd with ⟨g, hg, rfl⟩
    exact List.length_pos.mpr
      (groupByDate_snd_ne_nil _ g (mem_sortGroups.mp hg))

/-- C8 witness: the empty store's May 2024 aggregate. -/
theorem empty_month_witness :
    monthlyRoute [] 1 2024 5 = .ok ⟨0, 0, []⟩ ∧
    (∀ s2 o2 y2 m2 stats, monthlyRoute s2 o2 y2 m2 = .ok stats →
      ∀ d ∈ stats.daily, 0 < d.count) ∧
    (∀ s2 o2 l, dailyCompletionRoute s2 o2 = .ok l → ∀ d ∈ l, 0 < d.count) :=
  empty_month [] 1 2024 5 (by decide) rfl

/-- C9: Progress-only update is truly partial. For the caller's own
task (under Mongo's unique ids) and an in-range value, the
progress-only route returns the task with only `progress` and
`updateTime` changed — `title`, `date`, `category`, `priority`,
`userId` and `createTime` keep their previous values — and rewrites
exactly that task in the store. -/
theorem progress_update_frame (s : Store) (owner idv now : Nat) (p : Int)
    (h0 : 0 ≤ p) (h100 : p ≤ 100) (t : Task) (ht : t ∈ s) (hid : t.id = idv)
    (howner : t.userId = owner) (hids : s.Pairwise (fun a b => a.id ≠ b.id)) :
    ∃ t', updateProgressRoute s owner idv (some p) now =
        (.ok t', s.map (fun u => if u = t then t' else u)) ∧
      t'.title = t.title ∧ t'.date = t.date ∧ t'.category = t.category ∧
      t'.priority = t.priority ∧ t'.userId = t.userId ∧ t'.createTime = t.createTime ∧
      t'.progress = p ∧ t'.updateTime = now := by
  have hnd : s.Nodup := hids.imp (fun hne heq => hne (congrArg Task.id heq))
  have hpt : (fun u => u.id == idv && u.userId == owner) t = true := by
    simp [hid, howner]
  have huniq : ∀ v ∈ s, (v.id == idv && v.userId == owner) = true → v = t := by
    intro v hv hpv
    simp only [Bool.and_eq_true, beq_iff_eq] at hpv
    exact eq_of_mem_pairwise_id hids hv ht (by rw [hpv.1, hid])
  have hup := updateFirst_of_unique (f := fun u => { u with progress := (some p).getD u.progress, updateTime := now }) hnd ht hpt huniq
  have hv : progressValidate (some p) = [] := by
    simp only [progressValidate, if_neg (by omega : ¬ (p < 0 ∨ 100 < p))]
  refine ⟨{ t with progress := p, updateTime := now },
    ?_, rfl, rfl, rfl, rfl, rfl, rfl, rfl, rfl⟩
  simp only [updateProgressRoute]
  rw [if_pos hv, hup]
  rfl

/-- C9 witness: updating only the progress of a concrete task. -/
theorem progress_update_frame_witness :
    ∃ t', updateProgressRoute [⟨5, 1, "2024-05-01", "写周报", 10, "work", 3, 2, 2⟩]
        1 5 (some 50) 9 =
        (.ok t', [⟨5, 1, "2024-05-01", "写周报", 10, "work", 3, 2, 2⟩].map
          (fun u => if u = ⟨5, 1, "2024-05-01", "写周报", 10, "work", 3, 2, 2⟩ then t' else u)) ∧
      t'.title = (⟨5, 1, "2024-05-01", "写周报", 10, "work", 3, 2, 2⟩ : Task).title ∧
      t'.date = (⟨5, 1, "2024-05-01", "写周报", 10, "work", 3, 2, 2⟩ : Task).date ∧
      t'.category = (⟨5, 1, "2024-05-01", "写周报", 10, "work", 3, 2, 2⟩ : Task).category ∧
      t'.priority = (⟨5, 1, "2024-05-01", "写周报", 10, "work", 3, 2, 2⟩ : Task).priority ∧
      t'.userId = (⟨5, 1, "2024-05-01", "写周报", 10, "work", 3, 2, 2⟩ : Task).userId ∧
      t'.createTime = (⟨5, 1, "2024-05-01", "写周报", 10, "work", 3, 2, 2⟩ : Task).createTime ∧
      t'.progress = 50 ∧ t'.updateTime = 9 :=
  progress_update_frame [⟨5, 1, "2024-05-01", "写周报", 10, "work", 3, 2, 2⟩]
    1 5 9 50 (by decide) (by decide)
    ⟨5, 1, "2024-05-01", "写周报", 10, "work", 3, 2, 2⟩
    (by decide) rfl rfl (by decide)

/-- C10: Create ignores forged identity fields. A successful create
persists a document whose owner is the authenticated caller, whose id
is the freshly assigned one and whose timestamps are the server's
creation instant; and any two request bodies agreeing on the five
destructured fields `{date, title, progress, category, priority}` —
however they differ on `id`, `userId`, `createTime`, `updateTime` —
produce identical outcomes. -/
theorem create_ignores_forged (s : Store) (owner fid now : Nat) (b b2 : CreateBody)
    {t : Task} {s' : Store}
    (h : createTaskRoute s owner fid now b = (.ok t, s')) :
    t.userId = owner ∧ t.id = fid ∧ t.createTime = now ∧ t.updateTime = now ∧
      s' = s ++ [t] ∧
      (b2.date = b.date → b2.title = b.title → b2.progress = b.progress →
        b2.category = b.category → b2.priority = b.priority →
        createTaskRoute s owner fid now b2 = createTaskRoute s owner fid now b) := by
  have hcong : b2.date = b.date → b2.title = b.title → b2.progress = b.progress →
      b2.category = b.category → b2.priority = b.priority →
      createTaskRoute s owner fid now b2 = createTaskRoute s owner fid now b := by
    intro h1 h2 h3 h4 h5
    simp only [createTaskRoute, createValidate, h1, h2, h3, h4, h5]
  by_cases hv : createValidate b = []
  · simp only [createTaskRoute] at h
    rw [if_pos hv] at h
    rcases hmc : mongooseCreateTask owner fid now (b.date.getD "") (b.title.getD "")
        (b.progress.getD 0) (b.category.getD "general") (b.priority.getD 1) with _ | u
    · rw [hmc] at h
      exact absurd h (by simp)
    · rw [hmc] at h
      simp only at h
      injection h with h1 h2
      have ht : u = t := ApiResult.ok.inj h1
      obtain ⟨hid, huser, hct, hut, _, _, _, _, _, _, _, _, _⟩ :=
        mongooseCreateTask_some hmc
      subst ht
      exact ⟨huser, hid, hct, hut, h2.symm, hcong⟩
  · simp only [createTaskRoute] at h
    rw [if_neg hv] at h
    exact absurd h (by simp)

/-- C10 witness: a body forging `id`, `userId`, `createTime` and
`updateTime` creates the same record as the clean body, owned by the
authenticated caller with server-assigned timestamps. -/
theorem create_ignores_forged_witness :
    (⟨11, 7, "2024-05-01", "写周报", 0, "general", 1, 4, 4⟩ : Task).userId = 7 ∧
    (⟨11, 7, "2024-05-01", "写周报", 0, "general", 1, 4, 4⟩ : Task).id = 11 ∧
    (⟨11, 7, "2024-05-01", "写周报", 0, "general", 1, 4, 4⟩ : Task).createTime = 4 ∧
    (⟨11, 7, "2024-05-01", "写周报", 0, "general", 1, 4, 4⟩ : Task).updateTime = 4 ∧
    [⟨11, 7, "2024-05-01", "写周报", 0, "general", 1, 4, 4⟩] =
      [] ++ [(⟨11, 7, "2024-05-01", "写周报", 0, "general", 1, 4, 4⟩ : Task)] ∧
    ((⟨some "2024-05-01", some "写周报", none, none, none, none, none, none, none⟩ :
        CreateBody).date =
      (⟨some "2024-05-01", some "写周报", none, none, none, some 99, some 42, some 1,
        some 2⟩ : CreateBody).date →
      (⟨some "2024-05-01", some "写周报", none, none, none, none, none, none, none⟩ :
        CreateBody).title =
      (⟨some "2024-05-01", some "写周报", none, none, none, some 99, some 42, some 1,
        some 2⟩ : CreateBody).title →
      (⟨some "2024-05-01", some "写周报", none, none, none, none, none, none, none⟩ :
        CreateBody).progress =
      (⟨some "2024-05-01", some "写周报", none, none, none, some 99, some 42, some 1,
        some 2⟩ : CreateBody).progress →
      (⟨some "2024-05-01", some "写周报", none, none, none, none, none, none, none⟩ :
        CreateBody).category =
      (⟨some "2024-05-01", some "写周报", none, none, none, some 99, some 42, some 1,
        some 2⟩ : CreateBody).category →
      (⟨some "2024-05-01", some "写周报", none, none, none, none, none, none, none⟩ :
        CreateBody).priority =
      (⟨some "2024-05-01", some "写周报", none, none, none, some 99, some 42, some 1,
        some 2⟩ : CreateBody).priority →
      createTaskRoute [] 7 11 4
        ⟨some "2024-05-01", some "写周报", none, none, none, none, none, none, none⟩ =
      createTaskRoute [] 7 11 4
        ⟨some "2024-05-01", some "写周报", none, none, none, some 99, some 42, some 1,
          some 2⟩) :=
  create_ignores_forged [] 7 11 4
    ⟨some "2024-05-01", some "写周报", none, none, none, some 99, some 42, some 1, some 2⟩
    ⟨some "2024-05-01", some "写周报", none, none, none, none, none, none, none⟩
    (by decide)

end WorkingCalendar
